import Mathlib

/-!
Verification of the arithmetic-expression evaluator of `calc.go`
(package `main`: `Calc`, `isValidExpression`, `tokenize`,
`infixToPostfix`, `evaluatePostfix`, `isNumber`, `isOperator`,
`precedence`).

Modelling conventions:
* Go `float64` values are modelled as exact rationals (`ℚ`).  Every
  concrete computation appearing in the claims is exact in `float64`,
  so this idealisation changes no claim-level outcome; it does ignore
  `strconv.ParseFloat` range overflow on astronomically long literals.
* Go strings are Lean `String`s; `for _, c := range s` iterates runes,
  modelled by `s.toList`.
* `strings.TrimSpace(s) == ""` holds exactly when every character of
  `s` is whitespace; this is modelled by `isBlank` (Lean's
  `Char.isWhitespace` in place of Go's `unicode.IsSpace`; they agree on
  every character the claims exercise).
* The three `errors.New` values at the top of calc.go become the closed
  inductive `Err`.
* Lean does not allow the source names `infixToPostfix` and
  `evaluatePostfix` here, so those two functions are modelled as
  `toRPNAux`/`toRPN` and `evalRPNAux`/`evalRPN`; all other source names
  are kept.
-/

namespace CalcProof

/-- The three error values declared at the top of calc.go
(`ErrInvalidExpression`, `ErrMismatchedParentheses`,
`ErrDivisionByZero`). -/
inductive Err where
  | invalidExpression
  | mismatchedParentheses
  | divisionByZero
deriving DecidableEq

instance {ε α : Type} [DecidableEq ε] [DecidableEq α] : DecidableEq (Except ε α) := fun a b =>
  match a, b with
  | Except.ok x, Except.ok y =>
      if h : x = y then Decidable.isTrue (by rw [h]) else Decidable.isFalse (by simp [h])
  | Except.ok _, Except.error _ => Decidable.isFalse (by simp)
  | Except.error _, Except.ok _ => Decidable.isFalse (by simp)
  | Except.error x, Except.error y =>
      if h : x = y then Decidable.isTrue (by rw [h]) else Decidable.isFalse (by simp [h])

/-- `strings.TrimSpace(expression) == ""`: the text is empty after
trimming leading and trailing whitespace, i.e. every character is
whitespace. -/
def isBlank (s : String) : Bool := s.toList.all Char.isWhitespace

/-- The per-character test of `isValidExpression`:
`char >= '0' && char <= '9' || strings.ContainsRune("+-*/() ", char)`.
Note that the decimal point is NOT in this set. -/
def allowedChar (c : Char) : Bool :=
  (decide ('0' ≤ c) && decide (c ≤ '9')) || c == '+' || c == '-' || c == '*' ||
    c == '/' || c == '(' || c == ')' || c == ' '

/-- `isValidExpression` from calc.go: a pure character-class filter. -/
def isValidExpression (s : String) : Bool := s.toList.all allowedChar

/-- The six characters of the operator/parenthesis case of the
tokenizer's switch. -/
def isOpParenChar (c : Char) : Bool :=
  c == '+' || c == '-' || c == '*' || c == '/' || c == '(' || c == ')'

/-- The scanning loop of `tokenize` from calc.go: first argument is the
remaining input, second the pending literal buffer (`currentToken`).
A space is skipped without touching the buffer; an operator or
parenthesis flushes the buffer and is emitted on its own; any other
character is appended to the buffer; at end of input a non-empty buffer
is emitted. -/
def tokenizeAux : List Char → List Char → List String
  | [], buf => if buf.isEmpty then [] else [String.mk buf]
  | c :: cs, buf =>
    if c = ' ' then tokenizeAux cs buf
    else if isOpParenChar c then
      (if buf.isEmpty then [] else [String.mk buf]) ++ String.mk [c] :: tokenizeAux cs []
    else tokenizeAux cs (buf ++ [c])

/-- `tokenize` from calc.go. -/
def tokenize (s : String) : List String := tokenizeAux s.toList []

/-- `isOperator` from calc.go. -/
def isOperator (t : String) : Bool := t == "+" || t == "-" || t == "*" || t == "/"

/-- `precedence` from calc.go: 1 for `+ -`, 2 for `* /`, 0 otherwise
(in particular 0 for a left parenthesis). -/
def precedence (t : String) : Nat :=
  if t == "+" || t == "-" then 1
  else if t == "*" || t == "/" then 2
  else 0

/-- Success of `strconv.ParseFloat(token, 64)` (the body of `isNumber`
in calc.go), restricted to the character alphabet a token of this
program can carry: a string of digits and decimal points parses exactly
when it contains at least one digit and at most one point.  (Range
overflow of extremely long literals is ignored, as part of the
rational-number idealisation.) -/
def isNumber (t : String) : Bool :=
  t.toList.any (fun c => decide ('0' ≤ c) && decide (c ≤ '9')) &&
  t.toList.all (fun c => (decide ('0' ≤ c) && decide (c ≤ '9')) || c == '.') &&
  decide ((t.toList.filter (fun c => c == '.')).length ≤ 1)

/-- Numeric value of a decimal digit character. -/
def digitVal (c : Char) : Nat := c.toNat - '0'.toNat

/-- Value of a run of decimal digits, most significant first. -/
def digitsToNat (cs : List Char) : Nat := cs.foldl (fun n c => 10 * n + digitVal c) 0

/-- Value returned by `strconv.ParseFloat` on an `isNumber`-accepted
token, as an exact rational. -/
def parseNumber (t : String) : ℚ :=
  let cs := t.toList
  let intPart := cs.takeWhile (fun c => !(c == '.'))
  let fracPart := (cs.dropWhile (fun c => !(c == '.'))).drop 1
  (digitsToNat intPart : ℚ) + (digitsToNat fracPart : ℚ) / (10 : ℚ) ^ fracPart.length

/-- The pop loop of the operator branch of the converter
(`for len(oper) > 0 && precedence(oper[len(oper)-1]) >= precedence(token)`):
returns the emitted operators (top of stack first) and the remaining
stack. -/
def popGE (oper : List String) (tok : String) : List String × List String :=
  match oper with
  | [] => ([], [])
  | top :: rest =>
    if precedence tok ≤ precedence top then
      (top :: (popGE rest tok).1, (popGE rest tok).2)
    else ([], top :: rest)

/-- The pop loop of the right-parenthesis branch of the converter:
pops until a left parenthesis (discarded); `none` models the
`MismatchedParentheses` failure when the stack empties first. -/
def popUntil : List String → Option (List String × List String)
  | [] => none
  | top :: rest =>
    if top = "(" then some ([], rest)
    else
      match popUntil rest with
      | none => none
      | some p => some (top :: p.1, p.2)

/-- The final drain loop of the converter: pops the whole stack into
the output, failing with `MismatchedParentheses` if a left parenthesis
is found. -/
def popAll : List String → Except Err (List String)
  | [] => Except.ok []
  | top :: rest =>
    if top = "(" then Except.error Err.mismatchedParentheses
    else
      match popAll rest with
      | Except.error e => Except.error e
      | Except.ok l => Except.ok (top :: l)

/-- The token loop of `infixToPostfix` from calc.go; `out` is the
output slice built so far, `oper` the operator stack (top first). -/
def toRPNAux : List String → List String → List String → Except Err (List String)
  | [], out, oper =>
    match popAll oper with
    | Except.error e => Except.error e
    | Except.ok l => Except.ok (out ++ l)
  | t :: ts, out, oper =>
    if isNumber t then toRPNAux ts (out ++ [t]) oper
    else if t = "(" then toRPNAux ts out ("(" :: oper)
    else if t = ")" then
      match popUntil oper with
      | none => Except.error Err.mismatchedParentheses
      | some p => toRPNAux ts (out ++ p.1) p.2
    else if isOperator t then toRPNAux ts (out ++ (popGE oper t).1) (t :: (popGE oper t).2)
    else Except.error Err.invalidExpression

/-- `infixToPostfix` from calc.go (renamed, see the file header). -/
def toRPN (tokens : List String) : Except Err (List String) := toRPNAux tokens [] []

/-- The token loop of `evaluatePostfix` from calc.go; the second
argument is the value stack (top first). -/
def evalRPNAux : List String → List ℚ → Except Err ℚ
  | [], st =>
    match st with
    | [v] => Except.ok v
    | _ => Except.error Err.invalidExpression
  | t :: ts, st =>
    if isNumber t then evalRPNAux ts (parseNumber t :: st)
    else if isOperator t then
      match st with
      | b :: a :: rest =>
        if t = "+" then evalRPNAux ts ((a + b) :: rest)
        else if t = "-" then evalRPNAux ts ((a - b) :: rest)
        else if t = "*" then evalRPNAux ts ((a * b) :: rest)
        else if t = "/" then
          if b = 0 then Except.error Err.divisionByZero
          else evalRPNAux ts ((a / b) :: rest)
        else Except.error Err.invalidExpression
      | _ => Except.error Err.invalidExpression
    else Except.error Err.invalidExpression

/-- `evaluatePostfix` from calc.go (renamed, see the file header). -/
def evalRPN (l : List String) : Except Err ℚ := evalRPNAux l []

/-- The two leading guards of `Calc`: blank input, then the character
class check. -/
def validate (s : String) : Except Err Unit :=
  if isBlank s then Except.error Err.invalidExpression
  else if !isValidExpression s then Except.error Err.invalidExpression
  else Except.ok ()

/-- The tokenize / convert / evaluate tail of `Calc`. -/
def evalPipeline (s : String) : Except Err ℚ :=
  match toRPN (tokenize s) with
  | Except.error e => Except.error e
  | Except.ok r => evalRPN r

/-- `Calc` from calc.go. -/
def Calc (expression : String) : Except Err ℚ :=
  match validate expression with
  | Except.error e => Except.error e
  | Except.ok _ => evalPipeline expression

/-! ### Small step lemmas about the converter and the evaluator -/

theorem isOperator_cases {t : String} (h : isOperator t = true) :
    t = "+" ∨ t = "-" ∨ t = "*" ∨ t = "/" := by
  simp only [isOperator, Bool.or_eq_true, beq_iff_eq] at h
  tauto

theorem isOperator_isNumber {t : String} (h : isOperator t = true) : isNumber t = false := by
  rcases isOperator_cases h with h1 | h1 | h1 | h1 <;> subst h1 <;> rfl

theorem isOperator_precedence {t : String} (h : isOperator t = true) :
    1 ≤ precedence t := by
  rcases isOperator_cases h with h1 | h1 | h1 | h1 <;> subst h1 <;> decide

theorem precedence_lparen : precedence "(" = 0 := rfl

/-- A left parenthesis stacks itself. -/
theorem toRPNAux_lparen (ts out σ) :
    toRPNAux ("(" :: ts) out σ = toRPNAux ts out ("(" :: σ) := rfl

/-- An operator token pops all stacked entries of greater-or-equal
precedence into the output, then stacks itself. -/
theorem toRPNAux_operator {tok : String} (h : isOperator tok = true) (ts out σ) :
    toRPNAux (tok :: ts) out σ =
      toRPNAux ts (out ++ (popGE σ tok).1) (tok :: (popGE σ tok).2) := by
  rcases isOperator_cases h with h1 | h1 | h1 | h1 <;> subst h1 <;> rfl

/-- A right parenthesis pops until a left parenthesis, failing when the
stack is exhausted without one. -/
theorem toRPNAux_rparen (ts out σ) :
    toRPNAux (")" :: ts) out σ =
      match popUntil σ with
      | none => Except.error Err.mismatchedParentheses
      | some p => toRPNAux ts (out ++ p.1) p.2 := rfl

/-- A numeric token goes straight to the output. -/
theorem toRPNAux_number {t : String} (h : isNumber t = true) (ts out σ) :
    toRPNAux (t :: ts) out σ = toRPNAux ts (out ++ [t]) σ := by
  conv_lhs => rw [toRPNAux]
  rw [if_pos h]

/-- `popGE` pops exactly the largest prefix of greater-or-equal
precedence. -/
theorem popGE_eq_takeWhile (σ : List String) (tok : String) :
    popGE σ tok =
      (σ.takeWhile (fun t => decide (precedence tok ≤ precedence t)),
        σ.dropWhile (fun t => decide (precedence tok ≤ precedence t))) := by
  induction σ with
  | nil => rfl
  | cons t rest ih =>
    by_cases h : precedence tok ≤ precedence t
    · simp [popGE, if_pos h, ih, List.takeWhile_cons, List.dropWhile_cons, h]
    · simp [popGE, if_neg h, List.takeWhile_cons, List.dropWhile_cons, h]

theorem popGE_append {xs σ : List String} {tok : String}
    (h1 : ∀ t ∈ xs, precedence tok ≤ precedence t)
    (h2 : ∀ t, σ.head? = some t → precedence t < precedence tok) :
    popGE (xs ++ σ) tok = (xs, σ) := by
  induction xs with
  | nil =>
    cases σ with
    | nil => rfl
    | cons t rest =>
      have ht := h2 t rfl
      simp only [List.nil_append, popGE, if_neg (not_le.mpr ht)]
  | cons x rest ih =>
    have hx := h1 x (List.mem_cons_self x rest)
    have hrest : ∀ t ∈ rest, precedence tok ≤ precedence t :=
      fun t ht => h1 t (List.mem_cons_of_mem x ht)
    simp only [List.cons_append, popGE, if_pos hx, List.append_eq, ih hrest]

theorem popUntil_none {σ : List String} (h : ∀ t ∈ σ, t ≠ "(") : popUntil σ = none := by
  induction σ with
  | nil => rfl
  | cons t rest ih =>
    have ht := h t (List.mem_cons_self t rest)
    have hr : ∀ u ∈ rest, u ≠ "(" := fun u hu => h u (List.mem_cons_of_mem t hu)
    simp only [popUntil, if_neg ht, ih hr]

theorem popUntil_append {xs : List String} (σ : List String)
    (h : ∀ t ∈ xs, t ≠ "(") :
    popUntil (xs ++ "(" :: σ) = some (xs, σ) := by
  induction xs with
  | nil => rfl
  | cons x rest ih =>
    have hx := h x (List.mem_cons_self x rest)
    have hr : ∀ u ∈ rest, u ≠ "(" := fun u hu => h u (List.mem_cons_of_mem x hu)
    simp only [List.cons_append, popUntil, if_neg hx, List.append_eq, ih hr]

theorem popAll_ok {σ : List String} (h : ∀ t ∈ σ, t ≠ "(") :
    popAll σ = Except.ok σ := by
  induction σ with
  | nil => rfl
  | cons t rest ih =>
    have ht := h t (List.mem_cons_self t rest)
    have hr : ∀ u ∈ rest, u ≠ "(" := fun u hu => h u (List.mem_cons_of_mem t hu)
    simp only [popAll, if_neg ht, ih hr]

theorem popAll_mem_lparen {σ : List String} (h : "(" ∈ σ) :
    popAll σ = Except.error Err.mismatchedParentheses := by
  induction σ with
  | nil => cases h
  | cons t rest ih =>
    by_cases ht : t = "("
    · simp only [popAll, if_pos ht]
    · rcases List.mem_cons.mp h with h1 | h1
      · exact absurd h1.symm ht
      · simp only [popAll, if_neg ht, ih h1]

/-- A numeric token pushes its parsed value. -/
theorem evalRPNAux_number {t : String} (h : isNumber t = true) (ts st) :
    evalRPNAux (t :: ts) st = evalRPNAux ts (parseNumber t :: st) := by
  cases st with
  | nil => simp only [evalRPNAux, h, if_true]
  | cons x st2 =>
    cases st2 with
    | nil => simp only [evalRPNAux, h, if_true]
    | cons y st3 => simp only [evalRPNAux, h, if_true]

theorem evalRPNAux_plus (ts : List String) (b a : ℚ) (st : List ℚ) :
    evalRPNAux ("+" :: ts) (b :: a :: st) = evalRPNAux ts ((a + b) :: st) := rfl

theorem evalRPNAux_minus (ts : List String) (b a : ℚ) (st : List ℚ) :
    evalRPNAux ("-" :: ts) (b :: a :: st) = evalRPNAux ts ((a - b) :: st) := rfl

theorem evalRPNAux_star (ts : List String) (b a : ℚ) (st : List ℚ) :
    evalRPNAux ("*" :: ts) (b :: a :: st) = evalRPNAux ts ((a * b) :: st) := rfl

theorem evalRPNAux_slash (ts : List String) (b a : ℚ) (st : List ℚ) :
    evalRPNAux ("/" :: ts) (b :: a :: st) =
      if b = 0 then Except.error Err.divisionByZero
      else evalRPNAux ts ((a / b) :: st) := rfl

/-- An operator finding fewer than two stacked values fails. -/
theorem evalRPNAux_underflow {tok : String} (h : isOperator tok = true) (ts : List String)
    {st : List ℚ} (hst : st.length < 2) :
    evalRPNAux (tok :: ts) st = Except.error Err.invalidExpression := by
  cases st with
  | nil => rcases isOperator_cases h with h1 | h1 | h1 | h1 <;> subst h1 <;> rfl
  | cons x st2 =>
    cases st2 with
    | nil => rcases isOperator_cases h with h1 | h1 | h1 | h1 <;> subst h1 <;> rfl
    | cons y st3 =>
      exfalso
      simp only [List.length_cons] at hst
      omega

/-- End of input with anything but exactly one stacked value fails. -/
theorem evalRPNAux_final {st : List ℚ} (h : st.length ≠ 1) :
    evalRPNAux [] st = Except.error Err.invalidExpression := by
  cases st with
  | nil => rfl
  | cons x st2 =>
    cases st2 with
    | nil => simp at h
    | cons y st3 => rfl

theorem evalRPNAux_single (v : ℚ) : evalRPNAux [] [v] = Except.ok v := rfl

/-! ### Values of concrete literal tokens -/

theorem parseNumber_zero : parseNumber "0" = 0 := by
  show ((0:ℕ):ℚ) + ((0:ℕ):ℚ) / (10:ℚ) ^ (0:ℕ) = 0
  norm_num

theorem parseNumber_one : parseNumber "1" = 1 := by
  show ((1:ℕ):ℚ) + ((0:ℕ):ℚ) / (10:ℚ) ^ (0:ℕ) = 1
  norm_num

theorem parseNumber_two : parseNumber "2" = 2 := by
  show ((2:ℕ):ℚ) + ((0:ℕ):ℚ) / (10:ℚ) ^ (0:ℕ) = 2
  norm_num

theorem parseNumber_three : parseNumber "3" = 3 := by
  show ((3:ℕ):ℚ) + ((0:ℕ):ℚ) / (10:ℚ) ^ (0:ℕ) = 3
  norm_num

theorem parseNumber_four : parseNumber "4" = 4 := by
  show ((4:ℕ):ℚ) + ((0:ℕ):ℚ) / (10:ℚ) ^ (0:ℕ) = 4
  norm_num

theorem parseNumber_five : parseNumber "5" = 5 := by
  show ((5:ℕ):ℚ) + ((0:ℕ):ℚ) / (10:ℚ) ^ (0:ℕ) = 5
  norm_num

theorem parseNumber_eight : parseNumber "8" = 8 := by
  show ((8:ℕ):ℚ) + ((0:ℕ):ℚ) / (10:ℚ) ^ (0:ℕ) = 8
  norm_num

theorem parseNumber_twelve : parseNumber "12" = 12 := by
  show ((12:ℕ):ℚ) + ((0:ℕ):ℚ) / (10:ℚ) ^ (0:ℕ) = 12
  norm_num

/-! ### Concrete end-to-end evaluations used by the claims -/

theorem calc_one_plus_two_star_three : Calc "1+2*3" = Except.ok 7 := by
  have s1 : Calc "1+2*3" =
      evalRPNAux [] [parseNumber "1" + parseNumber "2" * parseNumber "3"] := rfl
  rw [s1, parseNumber_one, parseNumber_two, parseNumber_three]
  show Except.ok ((1:ℚ) + 2 * 3) = Except.ok 7
  norm_num

theorem calc_paren_one_plus_two_star_three : Calc "(1+2)*3" = Except.ok 9 := by
  have s1 : Calc "(1+2)*3" =
      evalRPNAux [] [(parseNumber "1" + parseNumber "2") * parseNumber "3"] := rfl
  rw [s1, parseNumber_one, parseNumber_two, parseNumber_three]
  show Except.ok (((1:ℚ) + 2) * 3) = Except.ok 9
  norm_num

theorem calc_eight_minus_three_minus_two : Calc "8-3-2" = Except.ok 3 := by
  have s1 : Calc "8-3-2" =
      evalRPNAux [] [parseNumber "8" - parseNumber "3" - parseNumber "2"] := rfl
  rw [s1, parseNumber_eight, parseNumber_three, parseNumber_two]
  show Except.ok ((8:ℚ) - 3 - 2) = Except.ok 3
  norm_num

theorem calc_eight_div_four_div_two : Calc "8/4/2" = Except.ok 1 := by
  have s1 : Calc "8/4/2" =
      evalRPNAux ["/", "2", "/"] [parseNumber "4", parseNumber "8"] := rfl
  rw [s1, evalRPNAux_slash, if_neg (by rw [parseNumber_four]; norm_num)]
  have s2 : evalRPNAux ["2", "/"] [parseNumber "8" / parseNumber "4"] =
      evalRPNAux ["/"] [parseNumber "2", parseNumber "8" / parseNumber "4"] := rfl
  rw [s2, evalRPNAux_slash, if_neg (by rw [parseNumber_two]; norm_num)]
  rw [parseNumber_eight, parseNumber_four, parseNumber_two]
  show Except.ok ((8:ℚ) / 4 / 2) = Except.ok 1
  norm_num

theorem calc_five_div_zero : Calc "5/0" = Except.error Err.divisionByZero := by
  have s1 : Calc "5/0" = evalRPNAux ["/"] [parseNumber "0", parseNumber "5"] := rfl
  rw [s1, evalRPNAux_slash, if_pos parseNumber_zero]

theorem calc_one_space_plus_two : Calc "1 + 2" = Except.ok 3 := by
  have s1 : Calc "1 + 2" = evalRPNAux [] [parseNumber "1" + parseNumber "2"] := rfl
  rw [s1, parseNumber_one, parseNumber_two]
  show Except.ok ((1:ℚ) + 2) = Except.ok 3
  norm_num

theorem calc_one_plus_two : Calc "1+2" = Except.ok 3 := by
  have s1 : Calc "1+2" = evalRPNAux [] [parseNumber "1" + parseNumber "2"] := rfl
  rw [s1, parseNumber_one, parseNumber_two]
  show Except.ok ((1:ℚ) + 2) = Except.ok 3
  norm_num

theorem calc_one_space_two : Calc "1 2" = Except.ok 12 := by
  have s1 : Calc "1 2" = evalRPNAux [] [parseNumber "12"] := rfl
  rw [s1, parseNumber_twelve]
  rfl

/-! ### The spec side: standard infix arithmetic

The spec's notion of a syntactically valid expression — balanced
parentheses, complete operator/operand alternation — and of "standard
left-to-right, precedence-respecting, left-associative arithmetic
evaluation" is formalised by the usual unambiguous grammar

  E := T | E + T | E - T      (precedence 1, left-associative)
  T := F | T * F | T / F      (precedence 2, left-associative)
  F := literal | ( E )

`Expr` records a parse tree (parenthesis nodes included, so each valid
token string is the rendering `toks` of the tree of its derivation),
`wf e l` says the tree is derivable from nonterminal level `l`
(0 = E, 1 = T, 2 = F), and `evalE` is the standard evaluation, `none`
exactly when some division by zero occurs. -/

inductive Expr where
  | num : String → Expr
  | paren : Expr → Expr
  | add : Expr → Expr → Expr
  | sub : Expr → Expr → Expr
  | mul : Expr → Expr → Expr
  | div : Expr → Expr → Expr
deriving DecidableEq

/-- The infix token string rendering a parse tree. -/
def toks : Expr → List String
  | Expr.num s => [s]
  | Expr.paren e => "(" :: (toks e ++ [")"])
  | Expr.add a b => toks a ++ ["+"] ++ toks b
  | Expr.sub a b => toks a ++ ["-"] ++ toks b
  | Expr.mul a b => toks a ++ ["*"] ++ toks b
  | Expr.div a b => toks a ++ ["/"] ++ toks b

/-- The postfix (reverse Polish) token string of a parse tree. -/
def rpn : Expr → List String
  | Expr.num s => [s]
  | Expr.paren e => rpn e
  | Expr.add a b => rpn a ++ rpn b ++ ["+"]
  | Expr.sub a b => rpn a ++ rpn b ++ ["-"]
  | Expr.mul a b => rpn a ++ rpn b ++ ["*"]
  | Expr.div a b => rpn a ++ rpn b ++ ["/"]

/-- A non-negative decimal integer literal: a non-empty run of digits. -/
def goodLit (s : String) : Bool :=
  !s.toList.isEmpty && s.toList.all (fun c => decide ('0' ≤ c) && decide (c ≤ '9'))

/-- Derivability of a parse tree from grammar level `l`
(0 = expression, 1 = term, 2 = factor). -/
def wf : Expr → Nat → Bool
  | Expr.num s, _ => goodLit s
  | Expr.paren e, _ => wf e 0
  | Expr.add a b, l => decide (l = 0) && wf a 0 && wf b 1
  | Expr.sub a b, l => decide (l = 0) && wf a 0 && wf b 1
  | Expr.mul a b, l => decide (l ≤ 1) && wf a 1 && wf b 2
  | Expr.div a b, l => decide (l ≤ 1) && wf a 1 && wf b 2

/-- Standard exact arithmetic evaluation of a parse tree; `none` when
a division by zero occurs. -/
def evalE : Expr → Option ℚ
  | Expr.num s => some (parseNumber s)
  | Expr.paren e => evalE e
  | Expr.add a b =>
    match evalE a, evalE b with
    | some x, some y => some (x + y)
    | _, _ => none
  | Expr.sub a b =>
    match evalE a, evalE b with
    | some x, some y => some (x - y)
    | _, _ => none
  | Expr.mul a b =>
    match evalE a, evalE b with
    | some x, some y => some (x * y)
    | _, _ => none
  | Expr.div a b =>
    match evalE a, evalE b with
    | some x, some y => if y = 0 then none else some (x / y)
    | _, _ => none

/-- While the converter processes the tokens of a (sub)tree, part of
its postfix output is still pending on the operator stack; `pend e` is
that pending part (top of stack first) and `pre e` the part already
emitted. -/
def pend : Expr → List String
  | Expr.num _ => []
  | Expr.paren _ => []
  | Expr.add _ b => pend b ++ ["+"]
  | Expr.sub _ b => pend b ++ ["-"]
  | Expr.mul _ b => pend b ++ ["*"]
  | Expr.div _ b => pend b ++ ["/"]

def pre : Expr → List String
  | Expr.num s => [s]
  | Expr.paren e => rpn e
  | Expr.add a b => rpn a ++ pre b
  | Expr.sub a b => rpn a ++ pre b
  | Expr.mul a b => rpn a ++ pre b
  | Expr.div a b => rpn a ++ pre b

theorem pre_append_pend (e : Expr) : pre e ++ pend e = rpn e := by
  induction e with
  | num s => rfl
  | paren e ih => simp [pre, pend, rpn]
  | add a b iha ihb => simp [pre, pend, rpn, ← ihb, List.append_assoc]
  | sub a b iha ihb => simp [pre, pend, rpn, ← ihb, List.append_assoc]
  | mul a b iha ihb => simp [pre, pend, rpn, ← ihb, List.append_assoc]
  | div a b iha ihb => simp [pre, pend, rpn, ← ihb, List.append_assoc]

theorem digit_ne_dot {c : Char} (h1 : '0' ≤ c) (h2 : c ≤ '9') : (c == '.') = false := by
  rw [beq_eq_false_iff_ne]
  intro heq
  subst heq
  exact absurd h1 (by decide)

theorem goodLit_isNumber {s : String} (h : goodLit s = true) : isNumber s = true := by
  simp only [goodLit, Bool.and_eq_true, Bool.not_eq_true', List.all_eq_true,
    Bool.and_eq_true, decide_eq_true_eq] at h
  obtain ⟨hne, hall⟩ := h
  simp only [isNumber, Bool.and_eq_true, List.any_eq_true, List.all_eq_true,
    Bool.or_eq_true, Bool.and_eq_true, decide_eq_true_eq]
  have hfilter : s.toList.filter (fun c => c == '.') = [] := by
    rw [List.filter_eq_nil_iff]
    intro c hc
    have hd := hall c hc
    simp [digit_ne_dot hd.1 hd.2]
  refine ⟨⟨?_, fun c hc => Or.inl (hall c hc)⟩, ?_⟩
  · cases hcs : s.toList with
    | nil => rw [hcs] at hne; simp at hne
    | cons c cs =>
      have hc : c ∈ s.toList := by rw [hcs]; exact List.mem_cons_self c cs
      exact ⟨c, List.mem_cons_self c cs, hall c hc⟩
  · rw [hfilter]
    simp

/-- Every pending entry is an operator of precedence at least the
level's threshold (so in particular never a left parenthesis). -/
theorem pend_ops {e : Expr} : ∀ {l : Nat}, wf e l = true →
    ∀ t ∈ pend e, isOperator t = true ∧ l + 1 ≤ precedence t := by
  induction e with
  | num s => intro l _ t ht; cases ht
  | paren e ih => intro l _ t ht; cases ht
  | add a b iha ihb =>
    intro l hw t ht
    simp only [wf, Bool.and_eq_true, decide_eq_true_eq] at hw
    obtain ⟨⟨hl, _⟩, hb⟩ := hw
    subst hl
    rcases List.mem_append.mp ht with h1 | h1
    · obtain ⟨hop, hp⟩ := ihb hb t h1
      exact ⟨hop, by omega⟩
    · rcases List.mem_singleton.mp h1 with rfl
      exact ⟨rfl, by decide⟩
  | sub a b iha ihb =>
    intro l hw t ht
    simp only [wf, Bool.and_eq_true, decide_eq_true_eq] at hw
    obtain ⟨⟨hl, _⟩, hb⟩ := hw
    subst hl
    rcases List.mem_append.mp ht with h1 | h1
    · obtain ⟨hop, hp⟩ := ihb hb t h1
      exact ⟨hop, by omega⟩
    · rcases List.mem_singleton.mp h1 with rfl
      exact ⟨rfl, by decide⟩
  | mul a b iha ihb =>
    intro l hw t ht
    simp only [wf, Bool.and_eq_true, decide_eq_true_eq] at hw
    obtain ⟨⟨hl, _⟩, hb⟩ := hw
    rcases List.mem_append.mp ht with h1 | h1
    · obtain ⟨hop, hp⟩ := ihb hb t h1
      exact ⟨hop, by omega⟩
    · rcases List.mem_singleton.mp h1 with rfl
      refine ⟨rfl, ?_⟩
      show l + 1 ≤ 2
      omega
  | div a b iha ihb =>
    intro l hw t ht
    simp only [wf, Bool.and_eq_true, decide_eq_true_eq] at hw
    obtain ⟨⟨hl, _⟩, hb⟩ := hw
    rcases List.mem_append.mp ht with h1 | h1
    · obtain ⟨hop, hp⟩ := ihb hb t h1
      exact ⟨hop, by omega⟩
    · rcases List.mem_singleton.mp h1 with rfl
      refine ⟨rfl, ?_⟩
      show l + 1 ≤ 2
      omega

theorem pend_ne_lparen {e : Expr} {l : Nat} (hw : wf e l = true) :
    ∀ t ∈ pend e, t ≠ "(" := by
  intro t ht heq
  obtain ⟨_, hp⟩ := pend_ops hw t ht
  rw [heq] at hp
  simp [precedence] at hp

/-! ### The converter is correct on every well-formed token string -/

/-- Head invariant of the operator stack: everything visible to the
current grammar level has smaller precedence. -/
theorem head_lt_of_cons {x : String} {σ : List String} {p : Nat}
    (hx : precedence x < p) :
    ∀ t, (x :: σ).head? = some t → precedence t < p := by
  intro t ht
  rw [List.head?_cons] at ht
  cases ht
  exact hx

/-- Running the converter's token loop over the rendering of a
well-formed (sub)tree emits `pre e` and leaves `pend e` on top of the
operator stack, for any stack whose top has precedence below the
level's threshold. -/
theorem toRPNAux_run (e : Expr) : ∀ (l : Nat), wf e l = true →
    ∀ (rest out σ : List String),
      (∀ t, σ.head? = some t → precedence t < l + 1) →
      toRPNAux (toks e ++ rest) out σ = toRPNAux rest (out ++ pre e) (pend e ++ σ) := by
  induction e with
  | num s =>
    intro l hw rest out σ hσ
    have hn : isNumber s = true := goodLit_isNumber hw
    simp only [toks, List.cons_append, List.nil_append]
    rw [toRPNAux_number hn]
    simp [pre, pend]
  | paren e ih =>
    intro l hw rest out σ hσ
    have hw0 : wf e 0 = true := hw
    have hlhs : toks (Expr.paren e) ++ rest = "(" :: (toks e ++ (")" :: rest)) := by
      simp [toks, List.append_assoc]
    rw [hlhs, toRPNAux_lparen,
      ih 0 hw0 (")" :: rest) out ("(" :: σ) (head_lt_of_cons (by decide)),
      toRPNAux_rparen, popUntil_append σ (pend_ne_lparen hw0)]
    show toRPNAux rest ((out ++ pre e) ++ pend e) σ = _
    rw [List.append_assoc, pre_append_pend]
    simp [pre, pend]
  | add a b iha ihb =>
    intro l hw rest out σ hσ
    simp only [wf, Bool.and_eq_true, decide_eq_true_eq] at hw
    obtain ⟨⟨hl, ha⟩, hb⟩ := hw
    subst hl
    have hlhs : toks (Expr.add a b) ++ rest = toks a ++ ("+" :: (toks b ++ rest)) := by
      simp [toks, List.append_assoc]
    rw [hlhs, iha 0 ha _ out σ hσ, toRPNAux_operator (show isOperator "+" = true from rfl)]
    have hpop : popGE (pend a ++ σ) "+" = (pend a, σ) := by
      apply popGE_append
      · intro t ht
        have h2 := (pend_ops ha t ht).2
        simpa [precedence] using h2
      · intro t ht
        have h2 := hσ t ht
        simpa [precedence] using h2
    rw [hpop, ihb 1 hb rest ((out ++ pre a) ++ pend a) ("+" :: σ) (head_lt_of_cons (by decide))]
    simp [pre, pend, ← pre_append_pend, List.append_assoc]
  | sub a b iha ihb =>
    intro l hw rest out σ hσ
    simp only [wf, Bool.and_eq_true, decide_eq_true_eq] at hw
    obtain ⟨⟨hl, ha⟩, hb⟩ := hw
    subst hl
    have hlhs : toks (Expr.sub a b) ++ rest = toks a ++ ("-" :: (toks b ++ rest)) := by
      simp [toks, List.append_assoc]
    rw [hlhs, iha 0 ha _ out σ hσ, toRPNAux_operator (show isOperator "-" = true from rfl)]
    have hpop : popGE (pend a ++ σ) "-" = (pend a, σ) := by
      apply popGE_append
      · intro t ht
        have h2 := (pend_ops ha t ht).2
        simpa [precedence] using h2
      · intro t ht
        have h2 := hσ t ht
        simpa [precedence] using h2
    rw [hpop, ihb 1 hb rest ((out ++ pre a) ++ pend a) ("-" :: σ) (head_lt_of_cons (by decide))]
    simp [pre, pend, ← pre_append_pend, List.append_assoc]
  | mul a b iha ihb =>
    intro l hw rest out σ hσ
    simp only [wf, Bool.and_eq_true, decide_eq_true_eq] at hw
    obtain ⟨⟨hl, ha⟩, hb⟩ := hw
    have hσ1 : ∀ t, σ.head? = some t → precedence t < 1 + 1 := by
      intro t ht
      have h2 := hσ t ht
      omega
    have hlhs : toks (Expr.mul a b) ++ rest = toks a ++ ("*" :: (toks b ++ rest)) := by
      simp [toks, List.append_assoc]
    rw [hlhs, iha 1 ha _ out σ hσ1, toRPNAux_operator (show isOperator "*" = true from rfl)]
    have hpop : popGE (pend a ++ σ) "*" = (pend a, σ) := by
      apply popGE_append
      · intro t ht
        have h2 := (pend_ops ha t ht).2
        simpa [precedence] using h2
      · intro t ht
        have h2 := hσ t ht
        have h3 : precedence t < 2 := by omega
        simpa [precedence] using h3
    rw [hpop, ihb 2 hb rest ((out ++ pre a) ++ pend a) ("*" :: σ) (head_lt_of_cons (by decide))]
    simp [pre, pend, ← pre_append_pend, List.append_assoc]
  | div a b iha ihb =>
    intro l hw rest out σ hσ
    simp only [wf, Bool.and_eq_true, decide_eq_true_eq] at hw
    obtain ⟨⟨hl, ha⟩, hb⟩ := hw
    have hσ1 : ∀ t, σ.head? = some t → precedence t < 1 + 1 := by
      intro t ht
      have h2 := hσ t ht
      omega
    have hlhs : toks (Expr.div a b) ++ rest = toks a ++ ("/" :: (toks b ++ rest)) := by
      simp [toks, List.append_assoc]
    rw [hlhs, iha 1 ha _ out σ hσ1, toRPNAux_operator (show isOperator "/" = true from rfl)]
    have hpop : popGE (pend a ++ σ) "/" = (pend a, σ) := by
      apply popGE_append
      · intro t ht
        have h2 := (pend_ops ha t ht).2
        simpa [precedence] using h2
      · intro t ht
        have h2 := hσ t ht
        have h3 : precedence t < 2 := by omega
        simpa [precedence] using h3
    rw [hpop, ihb 2 hb rest ((out ++ pre a) ++ pend a) ("/" :: σ) (head_lt_of_cons (by decide))]
    simp [pre, pend, ← pre_append_pend, List.append_assoc]

/-- The converter maps the infix rendering of a well-formed tree to its
postfix rendering. -/
theorem toRPN_toks {e : Expr} (h : wf e 0 = true) : toRPN (toks e) = Except.ok (rpn e) := by
  have hrun := toRPNAux_run e 0 h [] [] [] (by intro t ht; simp at ht)
  rw [List.append_nil] at hrun
  rw [toRPN, hrun]
  show (match popAll (pend e ++ []) with
    | Except.error e1 => Except.error e1
    | Except.ok l => Except.ok (([] ++ pre e) ++ l)) = Except.ok (rpn e)
  rw [List.append_nil, popAll_ok (pend_ne_lparen h), List.nil_append]
  show Except.ok (pre e ++ pend e) = Except.ok (rpn e)
  rw [pre_append_pend]

/-- Running the evaluator's token loop over the postfix rendering of a
well-formed tree pushes exactly its standard value. -/
theorem evalRPNAux_run (e : Expr) : ∀ (l : Nat), wf e l = true →
    ∀ (v : ℚ), evalE e = some v → ∀ (rest : List String) (st : List ℚ),
      evalRPNAux (rpn e ++ rest) st = evalRPNAux rest (v :: st) := by
  induction e with
  | num s =>
    intro l hw v hv rest st
    have hn := goodLit_isNumber hw
    simp only [rpn, List.cons_append, List.nil_append]
    rw [evalRPNAux_number hn]
    simp only [evalE, Option.some.injEq] at hv
    rw [hv]
  | paren e ih =>
    intro l hw v hv rest st
    exact ih 0 hw v hv rest st
  | add a b iha ihb =>
    intro l hw v hv rest st
    simp only [wf, Bool.and_eq_true, decide_eq_true_eq] at hw
    obtain ⟨⟨hl, ha⟩, hb⟩ := hw
    simp only [evalE] at hv
    cases hva : evalE a with
    | none => rw [hva] at hv; simp at hv
    | some x =>
      cases hvb : evalE b with
      | none => rw [hva, hvb] at hv; simp at hv
      | some y =>
        rw [hva, hvb] at hv
        simp only [Option.some.injEq] at hv
        have hlhs : rpn (Expr.add a b) ++ rest = rpn a ++ (rpn b ++ ("+" :: rest)) := by
          simp [rpn, List.append_assoc]
        rw [hlhs, iha 0 ha x hva, ihb 1 hb y hvb, evalRPNAux_plus, hv]
  | sub a b iha ihb =>
    intro l hw v hv rest st
    simp only [wf, Bool.and_eq_true, decide_eq_true_eq] at hw
    obtain ⟨⟨hl, ha⟩, hb⟩ := hw
    simp only [evalE] at hv
    cases hva : evalE a with
    | none => rw [hva] at hv; simp at hv
    | some x =>
      cases hvb : evalE b with
      | none => rw [hva, hvb] at hv; simp at hv
      | some y =>
        rw [hva, hvb] at hv
        simp only [Option.some.injEq] at hv
        have hlhs : rpn (Expr.sub a b) ++ rest = rpn a ++ (rpn b ++ ("-" :: rest)) := by
          simp [rpn, List.append_assoc]
        rw [hlhs, iha 0 ha x hva, ihb 1 hb y hvb, evalRPNAux_minus, hv]
  | mul a b iha ihb =>
    intro l hw v hv rest st
    simp only [wf, Bool.and_eq_true, decide_eq_true_eq] at hw
    obtain ⟨⟨hl, ha⟩, hb⟩ := hw
    simp only [evalE] at hv
    cases hva : evalE a with
    | none => rw [hva] at hv; simp at hv
    | some x =>
      cases hvb : evalE b with
      | none => rw [hva, hvb] at hv; simp at hv
      | some y =>
        rw [hva, hvb] at hv
        simp only [Option.some.injEq] at hv
        have hlhs : rpn (Expr.mul a b) ++ rest = rpn a ++ (rpn b ++ ("*" :: rest)) := by
          simp [rpn, List.append_assoc]
        rw [hlhs, iha 1 ha x hva, ihb 2 hb y hvb, evalRPNAux_star, hv]
  | div a b iha ihb =>
    intro l hw v hv rest st
    simp only [wf, Bool.and_eq_true, decide_eq_true_eq] at hw
    obtain ⟨⟨hl, ha⟩, hb⟩ := hw
    simp only [evalE] at hv
    cases hva : evalE a with
    | none => rw [hva] at hv; simp at hv
    | some x =>
      cases hvb : evalE b with
      | none => rw [hva, hvb] at hv; simp at hv
      | some y =>
        rw [hva, hvb] at hv
        dsimp only at hv
        by_cases hy : y = 0
        · rw [if_pos hy] at hv
          simp at hv
        · rw [if_neg hy] at hv
          simp only [Option.some.injEq] at hv
          have hlhs : rpn (Expr.div a b) ++ rest = rpn a ++ (rpn b ++ ("/" :: rest)) := by
            simp [rpn, List.append_assoc]
          rw [hlhs, iha 1 ha x hva, ihb 2 hb y hvb, evalRPNAux_slash, if_neg hy, hv]

theorem validate_ok {s : String} (hb : isBlank s = false) (hv : isValidExpression s = true) :
    validate s = Except.ok () := by
  simp [validate, hb, hv]

/-! ### Tokenizer lemmas: spaces are skipped without flushing -/

theorem tokenizeAux_filter_space (cs : List Char) : ∀ (buf : List Char),
    tokenizeAux (cs.filter (fun c => !(c == ' '))) buf = tokenizeAux cs buf := by
  induction cs with
  | nil => intro buf; rfl
  | cons c cs ih =>
    intro buf
    by_cases hc : c = ' '
    · subst hc
      have h1 : (' ' :: cs).filter (fun c => !(c == ' ')) = cs.filter (fun c => !(c == ' ')) := by
        simp
      have h2 : tokenizeAux (' ' :: cs) buf = tokenizeAux cs buf := rfl
      rw [h1, h2, ih]
    · have h1 : (c :: cs).filter (fun c => !(c == ' ')) =
          c :: cs.filter (fun c => !(c == ' ')) := by
        simp [hc]
      rw [h1]
      by_cases hop : isOpParenChar c = true
      · have h2 : ∀ (l : List Char), tokenizeAux (c :: l) buf =
            (if buf.isEmpty then [] else [String.mk buf]) ++
              String.mk [c] :: tokenizeAux l [] := by
          intro l
          conv_lhs => rw [tokenizeAux]
          rw [if_neg hc, if_pos hop]
        rw [h2, h2, ih]
      · have h2 : ∀ (l : List Char), tokenizeAux (c :: l) buf = tokenizeAux l (buf ++ [c]) := by
          intro l
          conv_lhs => rw [tokenizeAux]
          rw [if_neg hc, if_neg hop]
        rw [h2, h2, ih]

/-! ### Validator characterisation -/

theorem allowedChar_iff (c : Char) :
    allowedChar c = true ↔
      (('0' ≤ c ∧ c ≤ '9') ∨ c ∈ ['+', '-', '*', '/', '(', ')', ' ']) := by
  simp only [allowedChar, Bool.or_eq_true, Bool.and_eq_true, decide_eq_true_eq, beq_iff_eq,
    List.mem_cons, List.not_mem_nil, or_false]
  tauto

theorem isBlank_iff (s : String) :
    isBlank s = true ↔ ∀ c ∈ s.toList, c.isWhitespace = true := by
  simp [isBlank, List.all_eq_true]

theorem isValidExpression_iff (s : String) :
    isValidExpression s = true ↔ ∀ c ∈ s.toList, allowedChar c = true := by
  simp [isValidExpression, List.all_eq_true]

theorem validate_error_iff (s : String) :
    validate s = Except.error Err.invalidExpression ↔
      ((∀ c ∈ s.toList, c.isWhitespace = true) ∨
        ∃ c ∈ s.toList,
          ¬(('0' ≤ c ∧ c ≤ '9') ∨ c ∈ ['+', '-', '*', '/', '(', ')', ' '])) := by
  cases hb : isBlank s with
  | true =>
    have hL : validate s = Except.error Err.invalidExpression := by simp [validate, hb]
    rw [hL]
    simp only [true_iff]
    exact Or.inl ((isBlank_iff s).mp hb)
  | false =>
    cases hv : isValidExpression s with
    | true =>
      have hL : validate s = Except.ok () := validate_ok hb hv
      rw [hL]
      constructor
      · intro h
        cases h
      · intro h
        rcases h with h | h
        · rw [← isBlank_iff s] at h
          rw [h] at hb
          cases hb
        · obtain ⟨c, hc, hbad⟩ := h
          exact absurd ((allowedChar_iff c).mp (((isValidExpression_iff s).mp hv) c hc)) hbad
    | false =>
      have hL : validate s = Except.error Err.invalidExpression := by simp [validate, hb, hv]
      rw [hL]
      simp only [true_iff]
      refine Or.inr ?_
      have hnot : ¬∀ c ∈ s.toList, allowedChar c = true := by
        intro hall
        rw [← isValidExpression_iff s] at hall
        rw [hall] at hv
        cases hv
      push_neg at hnot
      obtain ⟨c, hc, hbad⟩ := hnot
      refine ⟨c, hc, ?_⟩
      intro hgood
      exact hbad ((allowedChar_iff c).mpr hgood)

theorem calc_of_validate_ok {s : String} (h : validate s = Except.ok ()) :
    Calc s = evalPipeline s := by
  rw [Calc, h]

/-! ### Claim theorems -/

/-- C1, counterexample: the claim as stated fails on the code.
`"5/0"` is composed only of allowed characters, has balanced
parentheses and complete operator/operand alternation, yet `Calc`
does not succeed — it fails with `DivisionByZero`.  Likewise, the
non-negative decimal number `1.5` yields `Calc "1.5" = InvalidExpression`
because the validator's character class does not contain the decimal
point. -/
theorem c1_counterexample :
    Calc "5/0" = Except.error Err.divisionByZero ∧
    Calc "1.5" = Except.error Err.invalidExpression :=
  ⟨calc_five_div_zero, by decide⟩

/-- C1 (amended): for every expression string over digits, `+ - * /`,
parentheses and spaces whose token sequence is the rendering of a
well-formed arithmetic expression with non-negative decimal integer
literals, and whose standard left-to-right, precedence-respecting,
left-associative evaluation does not divide by zero, `Calc` succeeds
and returns exactly that standard value. -/
theorem c1_calc_correct (s : String) (e : Expr) (v : ℚ)
    (hb : isBlank s = false) (hval : isValidExpression s = true)
    (htok : tokenize s = toks e) (hwf : wf e 0 = true) (hev : evalE e = some v) :
    Calc s = Except.ok v := by
  rw [Calc, validate_ok hb hval]
  show evalPipeline s = Except.ok v
  rw [evalPipeline, htok, toRPN_toks hwf]
  show evalRPN (rpn e) = Except.ok v
  rw [evalRPN]
  have hrun := evalRPNAux_run e 0 hwf v hev [] []
  rw [List.append_nil] at hrun
  rw [hrun]
  rfl

/-- C1, witness: the amended theorem applied to `"1+2*3"`, standard
value `7`. -/
theorem c1_calc_correct_witness : Calc "1+2*3" = Except.ok 7 :=
  c1_calc_correct "1+2*3"
    (Expr.add (Expr.num "1") (Expr.mul (Expr.num "2") (Expr.num "3"))) 7
    (by decide) (by decide) (by decide) (by decide)
    (by
      show some (parseNumber "1" + parseNumber "2" * parseNumber "3") = some (7 : ℚ)
      rw [parseNumber_one, parseNumber_two, parseNumber_three]
      norm_num)

/-- C2, counterexample: the claim says every non-blank input drawn
entirely from the alphabet digits, `.`, operators, parentheses and
space (including inputs containing `.`) passes validation; but the
code's character class omits the decimal point, so the non-blank
input `"1.5"` is rejected by the validator with `InvalidExpression`. -/
theorem c2_counterexample :
    isBlank "1.5" = false ∧ isValidExpression "1.5" = false ∧
    Calc "1.5" = Except.error Err.invalidExpression := by
  decide

/-- C2 (amended): the validation stage fails with `InvalidExpression`
if and only if, after trimming whitespace, the text is empty (i.e.
every character is whitespace), or some character is not one of the
digits `0`-`9`, the four operators, the two parentheses, or a space
(the decimal point is NOT allowed); otherwise the text passes through
unchanged to tokenization. -/
theorem c2_validator (s : String) :
    (validate s = Except.error Err.invalidExpression ↔
      ((∀ c ∈ s.toList, c.isWhitespace = true) ∨
        ∃ c ∈ s.toList,
          ¬(('0' ≤ c ∧ c ≤ '9') ∨ c ∈ ['+', '-', '*', '/', '(', ')', ' ']))) ∧
    (validate s = Except.ok () → Calc s = evalPipeline s) :=
  ⟨validate_error_iff s, fun h => calc_of_validate_ok h⟩

/-- C2, witness: the empty string fails validation; `"1+2"` passes it
and flows unchanged into the tokenize/convert/evaluate pipeline. -/
theorem c2_validator_witness :
    validate "" = Except.error Err.invalidExpression ∧
    Calc "1+2" = evalPipeline "1+2" :=
  ⟨(c2_validator "").1.mpr (Or.inl (by decide)), (c2_validator "1+2").2 (by decide)⟩

/-- C3, counterexample: the claim says a malformed literal such as
`1.2.3` is passed through by the converter to the postfix output and
only fails at the postfix-evaluation stage; but the converter rejects
the non-numeric token itself with `InvalidExpression`, and via `Calc`
such input is already rejected by the validation stage. -/
theorem c3_counterexample :
    toRPN (tokenize "1.2.3") = Except.error Err.invalidExpression ∧
    validate "1.2.3" = Except.error Err.invalidExpression := by
  decide

/-- C3 (amended): the tokenizer does emit a character-valid but
numerically malformed run such as `1.2.3` or a lone `.` as a single
literal token without semantic validation; however, via `Calc` such
inputs are rejected earlier, by the validator (whose class excludes
`.`), and a malformed literal reaching the converter directly is
rejected there with `InvalidExpression` — it is never passed through
to postfix evaluation. -/
theorem c3_malformed_literal :
    tokenize "1.2.3" = ["1.2.3"] ∧ tokenize "." = ["."] ∧
    isNumber "1.2.3" = false ∧ isNumber "." = false ∧
    toRPN ["1.2.3"] = Except.error Err.invalidExpression ∧
    toRPN ["."] = Except.error Err.invalidExpression ∧
    validate "1.2.3" = Except.error Err.invalidExpression ∧
    Calc "1.2.3" = Except.error Err.invalidExpression := by
  decide

/-- C4: same-precedence operators are left-associative: an incoming
operator pops stacked operators of greater-or-equal precedence before
being pushed; the evaluator applies `a op b` with `b` the more
recently pushed operand; concretely `Calc "8-3-2" = 3` (not `7`) and
`Calc "8/4/2" = 1`. -/
theorem c4_left_associativity :
    (∀ (tok : String), isOperator tok = true → ∀ (ts out σ : List String),
      toRPNAux (tok :: ts) out σ =
        toRPNAux ts
          (out ++ σ.takeWhile (fun t => decide (precedence tok ≤ precedence t)))
          (tok :: σ.dropWhile (fun t => decide (precedence tok ≤ precedence t)))) ∧
    (∀ (ts : List String) (b a : ℚ) (st : List ℚ),
      evalRPNAux ("-" :: ts) (b :: a :: st) = evalRPNAux ts ((a - b) :: st)) ∧
    (∀ (ts : List String) (b a : ℚ) (st : List ℚ),
      evalRPNAux ("/" :: ts) (b :: a :: st) =
        if b = 0 then Except.error Err.divisionByZero
        else evalRPNAux ts ((a / b) :: st)) ∧
    Calc "8-3-2" = Except.ok 3 ∧ Calc "8/4/2" = Except.ok 1 :=
  ⟨fun tok h ts out σ => by rw [toRPNAux_operator h, popGE_eq_takeWhile],
   evalRPNAux_minus, evalRPNAux_slash,
   calc_eight_minus_three_minus_two, calc_eight_div_four_div_two⟩

/-- C4, witness: the operator step applied to an incoming `-` over a
stacked `-` of equal precedence, which is popped. -/
theorem c4_left_associativity_witness :
    toRPNAux ["-"] [] ["-"] =
      toRPNAux []
        ([] ++ (["-"].takeWhile (fun t => decide (precedence "-" ≤ precedence t))))
        ("-" :: (["-"].dropWhile (fun t => decide (precedence "-" ≤ precedence t)))) :=
  c4_left_associativity.1 "-" (by decide) [] [] ["-"]

/-- C5: the precedence table maps `+ -` to 1 and `* /` to 2, making
multiplication and division bind tighter; concretely
`Calc "1+2*3" = 7` (not `9`) and `Calc "(1+2)*3" = 9`. -/
theorem c5_precedence :
    precedence "+" = 1 ∧ precedence "-" = 1 ∧
    precedence "*" = 2 ∧ precedence "/" = 2 ∧
    Calc "1+2*3" = Except.ok 7 ∧ Calc "(1+2)*3" = Except.ok 9 :=
  ⟨rfl, rfl, rfl, rfl, calc_one_plus_two_star_three, calc_paren_one_plus_two_star_three⟩

/-- C6: the converter fails with `MismatchedParentheses` exactly when
a closing parenthesis exhausts the operator stack without finding a
left parenthesis, or when the final drain finds a left parenthesis
still stacked (and the drain succeeds when none is); concretely
`")1+2("`, `"(1+2"` and `"1+2)"` each fail with
`MismatchedParentheses`. -/
theorem c6_mismatched_parentheses :
    (∀ (σ : List String), (∀ t ∈ σ, t ≠ "(") → ∀ (ts out : List String),
      toRPNAux (")" :: ts) out σ = Except.error Err.mismatchedParentheses) ∧
    (∀ σ : List String, "(" ∈ σ → popAll σ = Except.error Err.mismatchedParentheses) ∧
    (∀ σ : List String, (∀ t ∈ σ, t ≠ "(") → popAll σ = Except.ok σ) ∧
    Calc ")1+2(" = Except.error Err.mismatchedParentheses ∧
    Calc "(1+2" = Except.error Err.mismatchedParentheses ∧
    Calc "1+2)" = Except.error Err.mismatchedParentheses := by
  refine ⟨?_, fun σ h => popAll_mem_lparen h, fun σ h => popAll_ok h, by decide, by decide,
    by decide⟩
  intro σ h ts out
  rw [toRPNAux_rparen, popUntil_none h]

/-- C6, witness: a `)` on an empty operator stack fails; a drained `(`
fails; draining a parenthesis-free stack succeeds. -/
theorem c6_mismatched_parentheses_witness :
    toRPNAux [")"] [] [] = Except.error Err.mismatchedParentheses ∧
    popAll ["("] = Except.error Err.mismatchedParentheses ∧
    popAll ["+"] = Except.ok ["+"] :=
  ⟨c6_mismatched_parentheses.1 [] (by intro t ht; cases ht) [] [],
   c6_mismatched_parentheses.2.1 ["("] (by simp),
   c6_mismatched_parentheses.2.2.1 ["+"]
     (by intro t ht; rw [List.mem_singleton] at ht; subst ht; decide)⟩

/-- C7: a division whose right-hand operand is exactly zero fails
immediately with `DivisionByZero` before pushing any result;
concretely `Calc "5/0"` fails with `DivisionByZero`. -/
theorem c7_division_by_zero :
    (∀ (ts : List String) (a : ℚ) (st : List ℚ),
      evalRPNAux ("/" :: ts) (0 :: a :: st) = Except.error Err.divisionByZero) ∧
    Calc "5/0" = Except.error Err.divisionByZero := by
  refine ⟨?_, calc_five_div_zero⟩
  intro ts a st
  rw [evalRPNAux_slash, if_pos rfl]

/-- C8: an operator token with fewer than two stacked values fails
with `InvalidExpression`; after all tokens, anything but exactly one
stacked value fails with `InvalidExpression`, and a single stacked
value is returned as the result. -/
theorem c8_stack_discipline :
    (∀ (tok : String), isOperator tok = true → ∀ (ts : List String) (st : List ℚ),
      st.length < 2 → evalRPNAux (tok :: ts) st = Except.error Err.invalidExpression) ∧
    (∀ st : List ℚ, st.length ≠ 1 → evalRPNAux [] st = Except.error Err.invalidExpression) ∧
    (∀ v : ℚ, evalRPNAux [] [v] = Except.ok v) :=
  ⟨fun _ h ts _ hst => evalRPNAux_underflow h ts hst,
   fun _ h => evalRPNAux_final h,
   evalRPNAux_single⟩

/-- C8, witness: `+` over an empty value stack fails; an empty final
stack and a two-value final stack fail. -/
theorem c8_stack_discipline_witness :
    evalRPNAux ["+"] [] = Except.error Err.invalidExpression ∧
    evalRPNAux [] ([] : List ℚ) = Except.error Err.invalidExpression ∧
    evalRPNAux [] [(3 : ℚ), 4] = Except.error Err.invalidExpression :=
  ⟨c8_stack_discipline.1 "+" (by decide) [] [] (by decide),
   c8_stack_discipline.2.1 [] (by decide),
   c8_stack_discipline.2.1 [3, 4] (by decide)⟩

/-- C9: spaces are skipped by the tokenizer and never emitted — the
token stream equals that of the space-free text — so `Calc "1 + 2"`
and `Calc "1+2"` yield identical results. -/
theorem c9_whitespace_insensitive :
    (∀ (cs buf : List Char),
      tokenizeAux (cs.filter (fun c => !(c == ' '))) buf = tokenizeAux cs buf) ∧
    Calc "1 + 2" = Calc "1+2" := by
  refine ⟨fun cs buf => tokenizeAux_filter_space cs buf, ?_⟩
  rw [calc_one_space_plus_two, calc_one_plus_two]

/-- C10: a space does not flush the in-progress literal buffer, so
digit runs separated only by spaces merge into one number token and
`Calc "1 2"` succeeds with `12`. -/
theorem c10_space_merges_digits :
    (∀ (cs buf : List Char), tokenizeAux (' ' :: cs) buf = tokenizeAux cs buf) ∧
    tokenize "1 2" = ["12"] ∧ Calc "1 2" = Except.ok 12 :=
  ⟨fun _ _ => rfl, by decide, calc_one_space_two⟩

end CalcProof
